import Mathlib

/-!
Verification of the `DataStructure` container contract from
`src/rust/liskov-substitution/lsp_correct_demonstration.rs`.

The Rust file defines a trait `DataStructure` (add / remove / peek / size /
is_empty, the last derived as `size() == 0`) and four implementing structs:
`Stack` (LIFO), `Queue` (FIFO), `PriorityQueue` (max first, kept sorted),
and `Deque` (construction-time mode `Front` or `Back`), giving five policy
variants in total.  Containers hold `i32` values in a `Vec<i32>`; we model
the values as `Int` (no arithmetic is performed on them by any operation
under study, so `i32` overflow cannot arise) and `Vec<i32>` as `List Int`
with the front of the list at index 0, matching `Vec` indexing.

Fallible operations return `Result<i32, String>`, modelled as
`Except String Int`.  Mutating operations return the updated state
explicitly.
-/

namespace LSP

/-- `Result<i32, String>` from the Rust source. -/
abbrev Res := Except String Int

/-- `struct Stack { items: Vec<i32> }`. -/
structure Stack where
  items : List Int
deriving DecidableEq, Repr

namespace Stack

/-- `Stack::new()`. -/
def new : Stack := ⟨[]⟩

/-- `fn add(&mut self, element: i32) { self.items.push(element); }` -/
def add (s : Stack) (element : Int) : Stack :=
  ⟨s.items ++ [element]⟩

/-- `fn remove(&mut self) -> Result<i32, String>`:
    `self.items.pop().ok_or_else(|| "Stack is empty".to_string())`.
    `Vec::pop` removes and returns the last element. -/
def remove (s : Stack) : Res × Stack :=
  match s.items.getLast? with
  | some v => (Except.ok v, ⟨s.items.dropLast⟩)
  | none => (Except.error "Stack is empty", s)

/-- `fn peek(&self)`: `self.items.last().copied().ok_or_else(...)`. -/
def peek (s : Stack) : Res :=
  match s.items.getLast? with
  | some v => Except.ok v
  | none => Except.error "Stack is empty"

/-- `fn size(&self) -> usize { self.items.len() }` -/
def size (s : Stack) : Nat := s.items.length

/-- Trait-default `fn is_empty(&self) -> bool { self.size() == 0 }`. -/
def is_empty (s : Stack) : Bool := s.size == 0

end Stack

/-- `struct Queue { items: Vec<i32> }`. -/
structure Queue where
  items : List Int
deriving DecidableEq, Repr

namespace Queue

/-- `Queue::new()`. -/
def new : Queue := ⟨[]⟩

/-- `fn add`: `self.items.push(element)`. -/
def add (q : Queue) (element : Int) : Queue :=
  ⟨q.items ++ [element]⟩

/-- `fn remove`: if empty, `Err("Queue is empty")`, else
    `Ok(self.items.remove(0))` — removes and returns the front element. -/
def remove (q : Queue) : Res × Queue :=
  match q.items with
  | [] => (Except.error "Queue is empty", q)
  | x :: xs => (Except.ok x, ⟨xs⟩)

/-- `fn peek`: `self.items.first().copied().ok_or_else(...)`. -/
def peek (q : Queue) : Res :=
  match q.items with
  | [] => Except.error "Queue is empty"
  | x :: _ => Except.ok x

/-- `fn size`: `self.items.len()`. -/
def size (q : Queue) : Nat := q.items.length

/-- Trait-default `is_empty`. -/
def is_empty (q : Queue) : Bool := q.size == 0

end Queue

/-- `struct PriorityQueue { items: Vec<i32> }`. -/
structure PriorityQueue where
  items : List Int
deriving DecidableEq, Repr

/-- Rust `Vec::sort` (stable, ascending).  On `Int` values equal elements are
    indistinguishable, so every sorting algorithm returns the same list; we
    use insertion sort, which is extensionally the unique sorted permutation. -/
def sortVec (l : List Int) : List Int := List.insertionSort (· ≤ ·) l

namespace PriorityQueue

/-- `PriorityQueue::new()`. -/
def new : PriorityQueue := ⟨[]⟩

/-- `fn add`: `self.items.push(element); self.items.sort();`. -/
def add (q : PriorityQueue) (element : Int) : PriorityQueue :=
  ⟨sortVec (q.items ++ [element])⟩

/-- `fn remove`: `self.items.pop().ok_or_else(|| "Priority queue is empty")`. -/
def remove (q : PriorityQueue) : Res × PriorityQueue :=
  match q.items.getLast? with
  | some v => (Except.ok v, ⟨q.items.dropLast⟩)
  | none => (Except.error "Priority queue is empty", q)

/-- `fn peek`: `self.items.last().copied().ok_or_else(...)`. -/
def peek (q : PriorityQueue) : Res :=
  match q.items.getLast? with
  | some v => Except.ok v
  | none => Except.error "Priority queue is empty"

/-- `fn size`: `self.items.len()`. -/
def size (q : PriorityQueue) : Nat := q.items.length

/-- Trait-default `is_empty`. -/
def is_empty (q : PriorityQueue) : Bool := q.size == 0

end PriorityQueue

/-- `enum DequeMode { Front, Back }`. -/
inductive DequeMode where
  | Front : DequeMode
  | Back : DequeMode
deriving DecidableEq, Repr

/-- `struct Deque { items: Vec<i32>, mode: DequeMode }`. -/
structure Deque where
  items : List Int
  mode : DequeMode
deriving DecidableEq, Repr

namespace Deque

/-- `Deque::new(mode)`. -/
def new (mode : DequeMode) : Deque := ⟨[], mode⟩

/-- `fn add`: `self.items.push(element)` — always adds to the back. -/
def add (d : Deque) (element : Int) : Deque :=
  { d with items := d.items ++ [element] }

/-- `fn remove`: early-returns `Err("Deque is empty")` on empty, then
    `Front => Ok(self.items.remove(0))`, `Back => self.items.pop().ok_or_else(...)`. -/
def remove (d : Deque) : Res × Deque :=
  match d.items, d.mode with
  | [], _ => (Except.error "Deque is empty", d)
  | x :: xs, DequeMode.Front => (Except.ok x, ⟨xs, d.mode⟩)
  | l, DequeMode.Back =>
    match l.getLast? with
    | some v => (Except.ok v, ⟨l.dropLast, d.mode⟩)
    | none => (Except.error "Deque is empty", d)

/-- `fn peek`: early-returns `Err("Deque is empty")` on empty, then
    `Front => Ok(self.items[0])`, `Back => Ok(self.items[self.items.len() - 1])`. -/
def peek (d : Deque) : Res :=
  match d.items, d.mode with
  | [], _ => Except.error "Deque is empty"
  | x :: _, DequeMode.Front => Except.ok x
  | x :: xs, DequeMode.Back => Except.ok ((x :: xs).getLast (List.cons_ne_nil x xs))

/-- `fn size`: `self.items.len()`. -/
def size (d : Deque) : Nat := d.items.length

/-- Trait-default `is_empty`. -/
def is_empty (d : Deque) : Bool := d.size == 0

end Deque

/-- A `&mut dyn DataStructure` handle: the closed sum of the four structs
    implementing the trait (the `Deque` cases split on the mode at
    construction give the five policy variants). -/
inductive DSState where
  | stack : Stack → DSState
  | queue : Queue → DSState
  | pqueue : PriorityQueue → DSState
  | deque : Deque → DSState
deriving DecidableEq, Repr

/-- Dynamic dispatch of `add`. -/
def dsAdd : DSState → Int → DSState
  | DSState.stack s, e => DSState.stack (s.add e)
  | DSState.queue q, e => DSState.queue (q.add e)
  | DSState.pqueue q, e => DSState.pqueue (q.add e)
  | DSState.deque d, e => DSState.deque (d.add e)

/-- Dynamic dispatch of `remove`. -/
def dsRemove : DSState → Res × DSState
  | DSState.stack s => ((s.remove).1, DSState.stack (s.remove).2)
  | DSState.queue q => ((q.remove).1, DSState.queue (q.remove).2)
  | DSState.pqueue q => ((q.remove).1, DSState.pqueue (q.remove).2)
  | DSState.deque d => ((d.remove).1, DSState.deque (d.remove).2)

/-- Dynamic dispatch of `peek`. -/
def dsPeek : DSState → Res
  | DSState.stack s => s.peek
  | DSState.queue q => q.peek
  | DSState.pqueue q => q.peek
  | DSState.deque d => d.peek

/-- Dynamic dispatch of `size`. -/
def dsSize : DSState → Nat
  | DSState.stack s => s.size
  | DSState.queue q => q.size
  | DSState.pqueue q => q.size
  | DSState.deque d => d.size

/-- Trait-default `is_empty` through the dispatch. -/
def dsIsEmpty (s : DSState) : Bool := dsSize s == 0

/-- The element contents of a container, front of the `Vec` first. -/
def dsItems : DSState → List Int
  | DSState.stack s => s.items
  | DSState.queue q => q.items
  | DSState.pqueue q => q.items
  | DSState.deque d => d.items

/-- `fn transfer_elements(source, target, count) -> Result<(), String>`:
    `for _ in 0..count { if source.is_empty() { break; }
       match source.remove() { Ok(e) => target.add(e), Err(e) => return Err(e) } }
     Ok(())`. -/
def transfer_elements (source target : DSState) : Nat → Except String Unit × DSState × DSState
  | 0 => (Except.ok (), source, target)
  | Nat.succ n =>
    if dsIsEmpty source then
      (Except.ok (), source, target)
    else
      match dsRemove source with
      | (Except.ok e, s) => transfer_elements s (dsAdd target e) n
      | (Except.error msg, s) => (Except.error msg, s, target)

/-- A mutating call on a container: `add(v)` or `remove()` (result discarded
    by the trace; `countOkRemoves` observes which removes succeed). -/
inductive Op where
  | add : Int → Op
  | remove : Op
deriving DecidableEq, Repr

/-- Run a sequence of mutating calls against a container. -/
def runOps : DSState → List Op → DSState
  | s, [] => s
  | s, Op.add v :: ops => runOps (dsAdd s v) ops
  | s, Op.remove :: ops => runOps (dsRemove s).2 ops

/-- Number of `add` calls in a trace. -/
def countAdds : List Op → Nat
  | [] => 0
  | Op.add _ :: ops => countAdds ops + 1
  | Op.remove :: ops => countAdds ops

/-- Number of `remove` calls in a trace that succeed (return `Ok`) when the
    trace is run from the given start state. -/
def countOkRemoves : DSState → List Op → Nat
  | _, [] => 0
  | s, Op.add v :: ops => countOkRemoves (dsAdd s v) ops
  | s, Op.remove :: ops =>
    match dsRemove s with
    | (Except.ok _, s2) => countOkRemoves s2 ops + 1
    | (Except.error _, s2) => countOkRemoves s2 ops

/-- Specification-side companion of `transfer_elements`: the state left in
    the source and the list of elements removed from it, in the order they
    were removed, following exactly the iteration structure of the loop. -/
def drain : DSState → Nat → DSState × List Int
  | s, 0 => (s, [])
  | s, Nat.succ n =>
    if dsIsEmpty s then (s, [])
    else
      match dsRemove s with
      | (Except.ok e, s2) =>
        let p := drain s2 n
        (p.1, e :: p.2)
      | (Except.error _, s2) => (s2, [])

/-- A call through the `DataStructure` trait interface, for observational
    comparison of two containers (claim about Deque-Back vs Stack). -/
inductive ObsOp where
  | add : Int → ObsOp
  | remove : ObsOp
  | peek : ObsOp
  | size : ObsOp
  | isEmpty : ObsOp
deriving DecidableEq, Repr

/-- The observable outcome of a single trait call. -/
inductive Obs where
  | res : Res → Obs
  | num : Nat → Obs
  | bool : Bool → Obs
  | unit : Obs
deriving Repr

/-- One trait call on a `Stack`, returning its observation and next state. -/
def stackStep : Stack → ObsOp → Obs × Stack
  | s, ObsOp.add v => (Obs.unit, s.add v)
  | s, ObsOp.remove => (Obs.res (s.remove).1, (s.remove).2)
  | s, ObsOp.peek => (Obs.res s.peek, s)
  | s, ObsOp.size => (Obs.num s.size, s)
  | s, ObsOp.isEmpty => (Obs.bool s.is_empty, s)

/-- One trait call on a `Deque`, returning its observation and next state. -/
def dequeStep : Deque → ObsOp → Obs × Deque
  | d, ObsOp.add v => (Obs.unit, d.add v)
  | d, ObsOp.remove => (Obs.res (d.remove).1, (d.remove).2)
  | d, ObsOp.peek => (Obs.res d.peek, d)
  | d, ObsOp.size => (Obs.num d.size, d)
  | d, ObsOp.isEmpty => (Obs.bool d.is_empty, d)

/-- The stream of observations a `Stack` produces on a call sequence. -/
def stackRun : Stack → List ObsOp → List Obs
  | _, [] => []
  | s, op :: ops => (stackStep s op).1 :: stackRun (stackStep s op).2 ops

/-- The stream of observations a `Deque` produces on a call sequence. -/
def dequeRun : Deque → List ObsOp → List Obs
  | _, [] => []
  | d, op :: ops => (dequeStep d op).1 :: dequeRun (dequeStep d op).2 ops

/-- Canonicalise the text of error messages, so that observations are
    compared modulo the wording of the error string. -/
def obsShape : Obs → Obs
  | Obs.res (Except.error _) => Obs.res (Except.error "")
  | o => o

/-! ## Helper lemmas -/

/-- In a `(· ≤ ·)`-sorted list every member is at most the last element. -/
theorem mem_le_getLast : ∀ {l : List Int}, l.Sorted (· ≤ ·) →
    ∀ {x : Int}, x ∈ l → ∀ h : l ≠ [], x ≤ l.getLast h
  | [], _, _, hx, _ => absurd hx (List.not_mem_nil _)
  | [a], _, x, hx, _ => by
    simp only [List.mem_singleton] at hx
    simp [hx, List.getLast]
  | a :: b :: t, hs, x, hx, _ => by
    rw [List.getLast_cons (List.cons_ne_nil b t)]
    rcases List.mem_cons.1 hx with rfl | hx2
    · exact le_trans (List.rel_of_sorted_cons hs _ (List.getLast_mem (List.cons_ne_nil b t)))
        (le_refl _)
    · exact mem_le_getLast hs.of_cons hx2 (List.cons_ne_nil b t)

/-- Popping the most recent push returns it and restores the previous stack. -/
theorem Stack.remove_add (s : Stack) (e : Int) :
    Stack.remove (Stack.add s e) = (Except.ok e, s) := by
  simp [Stack.remove, Stack.add]

/-- `Stack.remove` on a non-empty stack returns the last element. -/
theorem stack_remove_last (s : Stack) (h : s.items ≠ []) :
    Stack.remove s = (Except.ok (s.items.getLast h), ⟨s.items.dropLast⟩) := by
  simp [Stack.remove, List.getLast?_eq_getLast_of_ne_nil h]

/-- `PriorityQueue.remove` on a non-empty queue returns the last element. -/
theorem pqueue_remove_last (q : PriorityQueue) (h : q.items ≠ []) :
    PriorityQueue.remove q = (Except.ok (q.items.getLast h), ⟨q.items.dropLast⟩) := by
  simp [PriorityQueue.remove, List.getLast?_eq_getLast_of_ne_nil h]

/-- `Deque.remove` in `Back` mode on a non-empty deque pops the last element. -/
theorem Deque.remove_back_nonempty (l : List Int) (h : l ≠ []) :
    Deque.remove ⟨l, DequeMode.Back⟩ =
      (Except.ok (l.getLast h), ⟨l.dropLast, DequeMode.Back⟩) := by
  cases l with
  | nil => exact absurd rfl h
  | cons x xs =>
    simp [Deque.remove, List.getLast?_eq_getLast_of_ne_nil (List.cons_ne_nil x xs)]

/-- `dsAdd` increments `dsSize` by exactly one, on every variant. -/
theorem dsSize_dsAdd (s : DSState) (v : Int) : dsSize (dsAdd s v) = dsSize s + 1 := by
  cases s with
  | stack s => simp [dsAdd, dsSize, Stack.add, Stack.size]
  | queue q => simp [dsAdd, dsSize, Queue.add, Queue.size]
  | pqueue q =>
    simp [dsAdd, dsSize, PriorityQueue.add, PriorityQueue.size, sortVec,
      List.length_insertionSort]
  | deque d => simp [dsAdd, dsSize, Deque.add, Deque.size]

/-- A successful `dsRemove` decrements `dsSize` by exactly one. -/
theorem dsSize_dsRemove_ok (s s2 : DSState) (v : Int)
    (h : dsRemove s = (Except.ok v, s2)) : dsSize s2 + 1 = dsSize s := by
  cases s with
  | stack s =>
    rcases s with ⟨l⟩
    cases l using List.reverseRecOn with
    | nil => simp [dsRemove, Stack.remove] at h
    | append_singleton l e =>
      simp [dsRemove, Stack.remove] at h
      rcases h with ⟨_, h2⟩
      subst h2
      simp [dsSize, Stack.size]
  | queue q =>
    rcases q with ⟨l⟩
    cases l with
    | nil => simp [dsRemove, Queue.remove] at h
    | cons x xs =>
      simp [dsRemove, Queue.remove] at h
      rcases h with ⟨_, h2⟩
      subst h2
      simp [dsSize, Queue.size]
  | pqueue q =>
    rcases q with ⟨l⟩
    cases l using List.reverseRecOn with
    | nil => simp [dsRemove, PriorityQueue.remove] at h
    | append_singleton l e =>
      simp [dsRemove, PriorityQueue.remove] at h
      rcases h with ⟨_, h2⟩
      subst h2
      simp [dsSize, PriorityQueue.size]
  | deque d =>
    rcases d with ⟨l, m⟩
    cases l with
    | nil => cases m <;> simp [dsRemove, Deque.remove] at h
    | cons x xs =>
      cases m with
      | Front =>
        simp [dsRemove, Deque.remove] at h
        rcases h with ⟨_, h2⟩
        subst h2
        simp [dsSize, Deque.size]
      | Back =>
        rw [dsRemove, Deque.remove_back_nonempty (x :: xs) (List.cons_ne_nil x xs)] at h
        simp at h
        rcases h with ⟨_, h2⟩
        subst h2
        simp [dsSize, Deque.size]

/-- A failed `dsRemove` leaves the container unchanged, and only happens on an
    empty container. -/
theorem dsRemove_error (s s2 : DSState) (m : String)
    (h : dsRemove s = (Except.error m, s2)) : s2 = s ∧ dsSize s = 0 := by
  cases s with
  | stack s =>
    rcases s with ⟨l⟩
    cases l using List.reverseRecOn with
    | nil =>
      simp [dsRemove, Stack.remove] at h
      simp [h, dsSize, Stack.size]
    | append_singleton l e => simp [dsRemove, Stack.remove] at h
  | queue q =>
    rcases q with ⟨l⟩
    cases l with
    | nil =>
      simp [dsRemove, Queue.remove] at h
      simp [h, dsSize, Queue.size]
    | cons x xs => simp [dsRemove, Queue.remove] at h
  | pqueue q =>
    rcases q with ⟨l⟩
    cases l using List.reverseRecOn with
    | nil =>
      simp [dsRemove, PriorityQueue.remove] at h
      simp [h, dsSize, PriorityQueue.size]
    | append_singleton l e => simp [dsRemove, PriorityQueue.remove] at h
  | deque d =>
    rcases d with ⟨l, md⟩
    cases l with
    | nil =>
      cases md <;> simp [dsRemove, Deque.remove] at h <;>
        simp [h, dsSize, Deque.size]
    | cons x xs =>
      cases md with
      | Front => simp [dsRemove, Deque.remove] at h
      | Back =>
        rw [dsRemove, Deque.remove_back_nonempty (x :: xs) (List.cons_ne_nil x xs)] at h
        simp at h

/-- On a non-empty container (any variant) `dsRemove` succeeds. -/
theorem dsRemove_ok_of_nonempty (s : DSState) (h : dsIsEmpty s = false) :
    ∃ v s2, dsRemove s = (Except.ok v, s2) := by
  rcases hr : dsRemove s with ⟨r, s2⟩
  cases r with
  | ok v => exact ⟨v, s2, rfl⟩
  | error m =>
    have h0 := (dsRemove_error s s2 m hr).2
    simp [dsIsEmpty, h0] at h

/-- Size bookkeeping along any trace of mutating calls: the size after the
    trace plus the number of successful removes equals the starting size plus
    the number of adds. -/
theorem runOps_size (ops : List Op) : ∀ s : DSState,
    dsSize (runOps s ops) + countOkRemoves s ops = dsSize s + countAdds ops := by
  induction ops with
  | nil => intro s; simp [runOps, countOkRemoves, countAdds]
  | cons op ops ih =>
    intro s
    cases op with
    | add v =>
      have h := ih (dsAdd s v)
      rw [dsSize_dsAdd] at h
      simp only [runOps, countOkRemoves, countAdds]
      omega
    | remove =>
      rcases hr : dsRemove s with ⟨r, s2⟩
      have hrun : runOps s (Op.remove :: ops) = runOps s2 ops := by
        simp [runOps, hr]
      cases r with
      | ok v =>
        have hcnt : countOkRemoves s (Op.remove :: ops) = countOkRemoves s2 ops + 1 := by
          simp [countOkRemoves, hr]
        have hsz := dsSize_dsRemove_ok s s2 v hr
        have h := ih s2
        rw [hrun, hcnt]
        simp only [countAdds]
        omega
      | error m =>
        have hcnt : countOkRemoves s (Op.remove :: ops) = countOkRemoves s2 ops := by
          simp [countOkRemoves, hr]
        have hse := dsRemove_error s s2 m hr
        rw [hrun, hcnt]
        simp only [countAdds]
        rw [hse.1]
        exact ih s

/-! ## Claims -/

/-- C1: for each of the five conforming policy variants, the results of
    `peek()` and of `remove()` (value and successor state) are a pure function
    of the current element contents and the policy alone: two containers of
    the same variant with equal contents behave identically, with no
    dependence on call history or external entropy (the state of every
    variant consists of nothing but its contents and, for `Deque`, the
    construction-time mode). -/
theorem c1_pure_function_of_contents :
    (∀ s1 s2 : Stack, s1.items = s2.items →
      Stack.peek s1 = Stack.peek s2 ∧ Stack.remove s1 = Stack.remove s2) ∧
    (∀ q1 q2 : Queue, q1.items = q2.items →
      Queue.peek q1 = Queue.peek q2 ∧ Queue.remove q1 = Queue.remove q2) ∧
    (∀ p1 p2 : PriorityQueue, p1.items = p2.items →
      PriorityQueue.peek p1 = PriorityQueue.peek p2 ∧
      PriorityQueue.remove p1 = PriorityQueue.remove p2) ∧
    (∀ d1 d2 : Deque, d1.mode = DequeMode.Back → d2.mode = DequeMode.Back →
      d1.items = d2.items →
      Deque.peek d1 = Deque.peek d2 ∧ Deque.remove d1 = Deque.remove d2) ∧
    (∀ d1 d2 : Deque, d1.mode = DequeMode.Front → d2.mode = DequeMode.Front →
      d1.items = d2.items →
      Deque.peek d1 = Deque.peek d2 ∧ Deque.remove d1 = Deque.remove d2) := by
  refine ⟨?_, ?_, ?_, ?_, ?_⟩
  · rintro ⟨l1⟩ ⟨l2⟩ h
    cases h
    exact ⟨rfl, rfl⟩
  · rintro ⟨l1⟩ ⟨l2⟩ h
    cases h
    exact ⟨rfl, rfl⟩
  · rintro ⟨l1⟩ ⟨l2⟩ h
    cases h
    exact ⟨rfl, rfl⟩
  · rintro ⟨l1, m1⟩ ⟨l2, m2⟩ h1 h2 h
    simp only at h1 h2 h
    subst h1; subst h2; subst h
    exact ⟨rfl, rfl⟩
  · rintro ⟨l1, m1⟩ ⟨l2, m2⟩ h1 h2 h
    simp only at h1 h2 h
    subst h1; subst h2; subst h
    exact ⟨rfl, rfl⟩

/-- Witness for C1 at concrete equal-content containers. -/
theorem c1_pure_function_of_contents_witness :
    Stack.peek ⟨[3, 7]⟩ = Stack.peek ⟨[3, 7]⟩ ∧
    Stack.remove ⟨[3, 7]⟩ = Stack.remove ⟨[3, 7]⟩ :=
  c1_pure_function_of_contents.1 ⟨[3, 7]⟩ ⟨[3, 7]⟩ rfl

/-- C2: on every non-empty container of each of the five conforming policy
    variants, `peek()` and an immediately following `remove()` return the
    same value (the `Deque` statement covers both modes at once). -/
theorem c2_peek_remove_agree :
    (∀ s : Stack, s.items ≠ [] →
      ∃ v, Stack.peek s = Except.ok v ∧ (Stack.remove s).1 = Except.ok v) ∧
    (∀ q : Queue, q.items ≠ [] →
      ∃ v, Queue.peek q = Except.ok v ∧ (Queue.remove q).1 = Except.ok v) ∧
    (∀ p : PriorityQueue, p.items ≠ [] →
      ∃ v, PriorityQueue.peek p = Except.ok v ∧ (PriorityQueue.remove p).1 = Except.ok v) ∧
    (∀ d : Deque, d.items ≠ [] →
      ∃ v, Deque.peek d = Except.ok v ∧ (Deque.remove d).1 = Except.ok v) := by
  refine ⟨?_, ?_, ?_, ?_⟩
  · rintro ⟨l⟩ h
    refine ⟨l.getLast h, ?_, ?_⟩
    · simp [Stack.peek, List.getLast?_eq_getLast_of_ne_nil h]
    · rw [stack_remove_last ⟨l⟩ h]
  · rintro ⟨l⟩ h
    cases l with
    | nil => exact absurd rfl h
    | cons x xs => exact ⟨x, rfl, rfl⟩
  · rintro ⟨l⟩ h
    refine ⟨l.getLast h, ?_, ?_⟩
    · simp [PriorityQueue.peek, List.getLast?_eq_getLast_of_ne_nil h]
    · rw [pqueue_remove_last ⟨l⟩ h]
  · rintro ⟨l, m⟩ h
    cases l with
    | nil => exact absurd rfl h
    | cons x xs =>
      cases m with
      | Front => exact ⟨x, rfl, rfl⟩
      | Back =>
        refine ⟨(x :: xs).getLast (List.cons_ne_nil x xs), rfl, ?_⟩
        rw [Deque.remove_back_nonempty (x :: xs) (List.cons_ne_nil x xs)]

/-- Witness for C2 on a concrete non-empty stack. -/
theorem c2_peek_remove_agree_witness :
    ∃ v, Stack.peek ⟨[4, 9]⟩ = Except.ok v ∧ (Stack.remove ⟨[4, 9]⟩).1 = Except.ok v :=
  c2_peek_remove_agree.1 ⟨[4, 9]⟩ (by simp)

/-- C3: for every variant, `remove()` and `peek()` fail exactly when
    `size() == 0` before the call, and on an empty container they return the
    error variant (the fixed message string), never a sentinel value; on a
    non-empty container they return `Ok`. -/
theorem c3_error_iff_empty :
    (∀ s : Stack,
      (Stack.size s = 0 →
        Stack.remove s = (Except.error "Stack is empty", s) ∧
        Stack.peek s = Except.error "Stack is empty") ∧
      (Stack.size s ≠ 0 →
        (∃ v, (Stack.remove s).1 = Except.ok v) ∧ (∃ v, Stack.peek s = Except.ok v))) ∧
    (∀ q : Queue,
      (Queue.size q = 0 →
        Queue.remove q = (Except.error "Queue is empty", q) ∧
        Queue.peek q = Except.error "Queue is empty") ∧
      (Queue.size q ≠ 0 →
        (∃ v, (Queue.remove q).1 = Except.ok v) ∧ (∃ v, Queue.peek q = Except.ok v))) ∧
    (∀ p : PriorityQueue,
      (PriorityQueue.size p = 0 →
        PriorityQueue.remove p = (Except.error "Priority queue is empty", p) ∧
        PriorityQueue.peek p = Except.error "Priority queue is empty") ∧
      (PriorityQueue.size p ≠ 0 →
        (∃ v, (PriorityQueue.remove p).1 = Except.ok v) ∧
        (∃ v, PriorityQueue.peek p = Except.ok v))) ∧
    (∀ d : Deque,
      (Deque.size d = 0 →
        Deque.remove d = (Except.error "Deque is empty", d) ∧
        Deque.peek d = Except.error "Deque is empty") ∧
      (Deque.size d ≠ 0 →
        (∃ v, (Deque.remove d).1 = Except.ok v) ∧ (∃ v, Deque.peek d = Except.ok v))) := by
  refine ⟨?_, ?_, ?_, ?_⟩
  · rintro ⟨l⟩
    constructor
    · intro h0
      have hl : l = [] := List.length_eq_zero.mp h0
      subst hl
      exact ⟨rfl, rfl⟩
    · intro hne
      have hl : l ≠ [] := fun e => hne (by simp [Stack.size, e])
      refine ⟨⟨l.getLast hl, ?_⟩, ⟨l.getLast hl, ?_⟩⟩
      · rw [stack_remove_last ⟨l⟩ hl]
      · simp [Stack.peek, List.getLast?_eq_getLast_of_ne_nil hl]
  · rintro ⟨l⟩
    constructor
    · intro h0
      have hl : l = [] := List.length_eq_zero.mp h0
      subst hl
      exact ⟨rfl, rfl⟩
    · intro hne
      cases l with
      | nil => exact absurd rfl hne
      | cons x xs => exact ⟨⟨x, rfl⟩, ⟨x, rfl⟩⟩
  · rintro ⟨l⟩
    constructor
    · intro h0
      have hl : l = [] := List.length_eq_zero.mp h0
      subst hl
      exact ⟨rfl, rfl⟩
    · intro hne
      have hl : l ≠ [] := fun e => hne (by simp [PriorityQueue.size, e])
      refine ⟨⟨l.getLast hl, ?_⟩, ⟨l.getLast hl, ?_⟩⟩
      · rw [pqueue_remove_last ⟨l⟩ hl]
      · simp [PriorityQueue.peek, List.getLast?_eq_getLast_of_ne_nil hl]
  · rintro ⟨l, m⟩
    constructor
    · intro h0
      have hl : l = [] := List.length_eq_zero.mp h0
      subst hl
      cases m <;> exact ⟨rfl, rfl⟩
    · intro hne
      cases l with
      | nil => exact absurd rfl hne
      | cons x xs =>
        cases m with
        | Front => exact ⟨⟨x, rfl⟩, ⟨x, rfl⟩⟩
        | Back =>
          refine ⟨⟨(x :: xs).getLast (List.cons_ne_nil x xs), ?_⟩,
            ⟨(x :: xs).getLast (List.cons_ne_nil x xs), rfl⟩⟩
          rw [Deque.remove_back_nonempty (x :: xs) (List.cons_ne_nil x xs)]

/-- Witness for C3 on the concrete empty stack. -/
theorem c3_error_iff_empty_witness :
    Stack.remove ⟨[]⟩ = (Except.error "Stack is empty", (⟨[]⟩ : Stack)) ∧
    Stack.peek ⟨[]⟩ = Except.error "Stack is empty" :=
  (c3_error_iff_empty.1 ⟨[]⟩).1 rfl

/-- C4: on every variant, `add` always succeeds and increases `size` by
    exactly 1, every successful `remove` decreases `size` by exactly 1, and
    consequently after any trace of calls starting from an empty container
    with `n` adds and `m` successful removes, `m ≤ n` and `size() = n - m`. -/
theorem c4_size_accounting :
    (∀ (s : DSState) (v : Int), dsSize (dsAdd s v) = dsSize s + 1) ∧
    (∀ (s s2 : DSState) (v : Int),
      dsRemove s = (Except.ok v, s2) → dsSize s2 + 1 = dsSize s) ∧
    (∀ (s : DSState) (ops : List Op), dsSize s = 0 →
      countOkRemoves s ops ≤ countAdds ops ∧
      dsSize (runOps s ops) = countAdds ops - countOkRemoves s ops) := by
  refine ⟨dsSize_dsAdd, dsSize_dsRemove_ok, ?_⟩
  intro s ops h0
  have key := runOps_size ops s
  rw [h0] at key
  omega

/-- Witness for C4 on a concrete trace from the empty stack. -/
theorem c4_size_accounting_witness :
    countOkRemoves (DSState.stack ⟨[]⟩) [Op.add 1, Op.add 2, Op.remove] ≤
      countAdds [Op.add 1, Op.add 2, Op.remove] ∧
    dsSize (runOps (DSState.stack ⟨[]⟩) [Op.add 1, Op.add 2, Op.remove]) =
      countAdds [Op.add 1, Op.add 2, Op.remove] -
        countOkRemoves (DSState.stack ⟨[]⟩) [Op.add 1, Op.add 2, Op.remove] :=
  c4_size_accounting.2.2 (DSState.stack ⟨[]⟩) [Op.add 1, Op.add 2, Op.remove] rfl

/-- C6: the Stack (LIFO) variant removes the most recently added value not
    yet removed: popping right after a push returns the pushed value and
    restores the previous state (which algebraically forces LIFO order under
    arbitrary interleaving), and the concrete scenario add 10, 20, 30 gives
    `peek() = 30`, `remove() = 30`, then `size() = 2`. -/
theorem c6_stack_lifo :
    (∀ (s : Stack) (e : Int), Stack.remove (Stack.add s e) = (Except.ok e, s)) ∧
    (Stack.peek (Stack.add (Stack.add (Stack.add Stack.new 10) 20) 30) = Except.ok 30 ∧
     (Stack.remove (Stack.add (Stack.add (Stack.add Stack.new 10) 20) 30)).1 = Except.ok 30 ∧
     Stack.size (Stack.remove (Stack.add (Stack.add (Stack.add Stack.new 10) 20) 30)).2 = 2) :=
  ⟨Stack.remove_add, rfl, rfl, rfl⟩

/-- C7: the Queue (FIFO) variant removes the earliest added value still
    present: on an empty queue an add is immediately removable, on a
    non-empty queue a later add changes neither the removed value nor the
    peeked value (it only lands at the back of the successor state), and the
    concrete scenario add 10, 20, 30 gives `peek() = 10`, `remove() = 10`,
    then `size() = 2`. -/
theorem c7_queue_fifo :
    (∀ e : Int, Queue.remove (Queue.add Queue.new e) = (Except.ok e, Queue.new)) ∧
    (∀ (q : Queue) (e : Int), q.items ≠ [] →
      (Queue.remove (Queue.add q e)).1 = (Queue.remove q).1 ∧
      (Queue.remove (Queue.add q e)).2 = Queue.add (Queue.remove q).2 e ∧
      Queue.peek (Queue.add q e) = Queue.peek q) ∧
    (Queue.peek (Queue.add (Queue.add (Queue.add Queue.new 10) 20) 30) = Except.ok 10 ∧
     (Queue.remove (Queue.add (Queue.add (Queue.add Queue.new 10) 20) 30)).1 = Except.ok 10 ∧
     Queue.size (Queue.remove (Queue.add (Queue.add (Queue.add Queue.new 10) 20) 30)).2 = 2) := by
  refine ⟨fun e => rfl, ?_, rfl, rfl, rfl⟩
  rintro ⟨l⟩ e h
  cases l with
  | nil => exact absurd rfl h
  | cons x xs => exact ⟨rfl, rfl, rfl⟩

/-- Witness for C7 on a concrete non-empty queue. -/
theorem c7_queue_fifo_witness :
    (Queue.remove (Queue.add ⟨[5]⟩ 7)).1 = (Queue.remove ⟨[5]⟩).1 ∧
    (Queue.remove (Queue.add ⟨[5]⟩ 7)).2 = Queue.add (Queue.remove ⟨[5]⟩).2 7 ∧
    Queue.peek (Queue.add ⟨[5]⟩ 7) = Queue.peek ⟨[5]⟩ :=
  c7_queue_fifo.2.1 ⟨[5]⟩ 7 (by simp)

/-- C9: `transfer_elements` always returns `Ok(())` when the source is any of
    the five conforming variants: the loop checks `is_empty` before each
    removal and `remove` on every variant succeeds on a non-empty container,
    so the error-propagating branch is unreachable. -/
theorem c9_transfer_never_errors (s t : DSState) (n : Nat) :
    (transfer_elements s t n).1 = Except.ok () := by
  induction n generalizing s t with
  | zero => rfl
  | succ n ih =>
    rw [transfer_elements]
    by_cases h : dsIsEmpty s = true
    · rw [if_pos h]
    · rw [if_neg h]
      obtain ⟨v, s2, hr⟩ := dsRemove_ok_of_nonempty s (by
        cases hb : dsIsEmpty s
        · rfl
        · exact absurd hb h)
      rw [hr]
      exact ih s2 (dsAdd t v)

/-- C5: `transfer_elements` removes up to `count` elements from the source,
    stopping as soon as the source is empty, and adds each removed element to
    the target in exactly the order removed (`drain` names that removal
    sequence, following the loop structure); for the five conforming
    variants the first conjunct shows the run succeeds with the target
    extended by exactly the drained elements in order.  The concrete
    scenario (Stack source holding 1..5, empty Queue target, count 3) leaves
    the source at [1, 2] with size 2, the target having received 5, 4, 3 in
    that order, and the next `remove()` on the target returning 5. -/
theorem c5_transfer_functional :
    (∀ (s t : DSState) (n : Nat),
      transfer_elements s t n =
        (Except.ok (), (drain s n).1, List.foldl dsAdd t (drain s n).2)) ∧
    (∀ (s : DSState) (n : Nat), (drain s n).2.length = min n (dsSize s)) ∧
    (transfer_elements
        (DSState.stack
          (Stack.add (Stack.add (Stack.add (Stack.add (Stack.add Stack.new 1) 2) 3) 4) 5))
        (DSState.queue Queue.new) 3 =
      (Except.ok (), DSState.stack ⟨[1, 2]⟩, DSState.queue ⟨[5, 4, 3]⟩) ∧
     dsSize (DSState.stack ⟨[1, 2]⟩) = 2 ∧
     (dsRemove (DSState.queue ⟨[5, 4, 3]⟩)).1 = Except.ok 5) := by
  refine ⟨?_, ?_, rfl, rfl, rfl⟩
  · intro s t n
    induction n generalizing s t with
    | zero => rfl
    | succ n ih =>
      rw [transfer_elements, drain]
      by_cases h : dsIsEmpty s = true
      · rw [if_pos h, if_pos h]
        rfl
      · rw [if_neg h, if_neg h]
        obtain ⟨v, s2, hr⟩ := dsRemove_ok_of_nonempty s (by
          cases hb : dsIsEmpty s
          · rfl
          · exact absurd hb h)
        rw [hr]
        exact ih s2 (dsAdd t v)
  · intro s n
    induction n generalizing s with
    | zero => simp [drain]
    | succ n ih =>
      rw [drain]
      by_cases h : dsIsEmpty s = true
      · have h0 : dsSize s = 0 := by simpa [dsIsEmpty] using h
        rw [if_pos h]
        simp [h0]
      · have h0 : ¬dsSize s = 0 := by simpa [dsIsEmpty] using h
        rw [if_neg h]
        obtain ⟨v, s2, hr⟩ := dsRemove_ok_of_nonempty s (by
          cases hb : dsIsEmpty s
          · rfl
          · exact absurd hb h)
        rw [hr]
        have hsz := dsSize_dsRemove_ok s s2 v hr
        have hlen := ih s2
        simp only [List.length_cons]
        omega

/-- C8: on every reachable `PriorityQueue` state (its `items` are sorted:
    `add` sorts unconditionally and `remove` preserves sortedness, from the
    empty start), a non-empty queue answers both `peek()` and `remove()`
    with the same element — the last of the sorted `items` — which is a
    maximum of the current contents, so ties are broken consistently
    between `peek` and `remove`. -/
theorem c8_priority_max :
    (∀ (q : PriorityQueue) (e : Int), ((PriorityQueue.add q e).items).Sorted (· ≤ ·)) ∧
    (∀ q : PriorityQueue, q.items.Sorted (· ≤ ·) →
      ((PriorityQueue.remove q).2.items).Sorted (· ≤ ·)) ∧
    (∀ q : PriorityQueue, q.items.Sorted (· ≤ ·) → ∀ h : q.items ≠ [],
      PriorityQueue.peek q = Except.ok (q.items.getLast h) ∧
      (PriorityQueue.remove q).1 = Except.ok (q.items.getLast h) ∧
      q.items.getLast h ∈ q.items ∧
      ∀ x ∈ q.items, x ≤ q.items.getLast h) := by
  refine ⟨?_, ?_, ?_⟩
  · intro q e
    exact List.sorted_insertionSort _ _
  · rintro ⟨l⟩ hs
    cases hl : l.getLast? with
    | none =>
      simp only [PriorityQueue.remove, hl]
      exact hs
    | some v =>
      simp only [PriorityQueue.remove, hl]
      exact List.Pairwise.sublist (List.dropLast_sublist l) hs
  · rintro ⟨l⟩ hs h
    refine ⟨?_, ?_, List.getLast_mem h, fun x hx => mem_le_getLast hs hx h⟩
    · simp [PriorityQueue.peek, List.getLast?_eq_getLast_of_ne_nil h]
    · rw [pqueue_remove_last ⟨l⟩ h]

/-- Witness for C8 on the concrete sorted queue holding 1 and 3. -/
theorem c8_priority_max_witness :
    PriorityQueue.peek ⟨[1, 3]⟩ = Except.ok 3 ∧
    (PriorityQueue.remove ⟨[1, 3]⟩).1 = Except.ok 3 := by
  have h := c8_priority_max.2.2 ⟨[1, 3]⟩ (by simp) (by simp)
  exact ⟨h.1, h.2.1⟩

/-- One-trait-call simulation between a Back-mode `Deque` and a `Stack`
    holding the same contents: the observations agree modulo error-message
    text, and the successor states again hold the same contents. -/
theorem dequeBack_stackStep (l : List Int) (op : ObsOp) :
    obsShape (dequeStep ⟨l, DequeMode.Back⟩ op).1 = obsShape (stackStep ⟨l⟩ op).1 ∧
    (dequeStep ⟨l, DequeMode.Back⟩ op).2 = ⟨(stackStep ⟨l⟩ op).2.items, DequeMode.Back⟩ := by
  cases op with
  | add v => exact ⟨rfl, rfl⟩
  | remove =>
    cases l with
    | nil => exact ⟨rfl, rfl⟩
    | cons x xs =>
      have hd := Deque.remove_back_nonempty (x :: xs) (List.cons_ne_nil x xs)
      have hsx := stack_remove_last ⟨x :: xs⟩ (List.cons_ne_nil x xs)
      constructor
      · simp [dequeStep, stackStep, hd, hsx, obsShape]
      · simp [dequeStep, stackStep, hd, hsx]
  | peek =>
    cases l with
    | nil => exact ⟨rfl, rfl⟩
    | cons x xs =>
      constructor
      · simp [dequeStep, stackStep, Deque.peek, Stack.peek,
          List.getLast?_eq_getLast_of_ne_nil (List.cons_ne_nil x xs), obsShape]
      · rfl
  | size => exact ⟨rfl, rfl⟩
  | isEmpty => exact ⟨rfl, rfl⟩

/-- C10: a `Deque` constructed in `Back` mode is observationally equivalent
    to a `Stack`: for every sequence of trait calls
    (`add`/`remove`/`peek`/`size`/`is_empty`) applied to both containers
    holding the same contents (in particular both empty), the streams of
    observed results coincide modulo the error-message text. -/
theorem c10_dequeBack_equiv_stack (l : List Int) (ops : List ObsOp) :
    (dequeRun ⟨l, DequeMode.Back⟩ ops).map obsShape =
      (stackRun ⟨l⟩ ops).map obsShape := by
  induction ops generalizing l with
  | nil => rfl
  | cons op ops ih =>
    have hstep := dequeBack_stackStep l op
    rw [dequeRun, stackRun, List.map_cons, List.map_cons, hstep.1, hstep.2, ih]

end LSP
